import Mathlib

/-!
Verification of the `openapp` CLI (`src/index.js`): a shallow embedding of
its validation layer, config store, shortcut resolution, list/search
operations and browser-launch instruction building, with theorems checking
the specification's claims against the embedded code.

Strings are modelled as Lean `String` / `List Char`; the JavaScript string
operations used by the source (`trim`, `toLowerCase`, regular-expression
tests over the ASCII alphabets involved) are embedded explicitly below.
-/

namespace OpenApp

/-- ASCII lowercasing of one character, as JavaScript `toLowerCase` acts on
the ASCII range (the only range relevant to the validators' alphabets). -/
def toLowerAscii (c : Char) : Char :=
  if 65 ≤ c.toNat ∧ c.toNat ≤ 90 then Char.ofNat (c.toNat + 32) else c

/-- ASCII lowercasing of a character list (JavaScript `String.toLowerCase`). -/
def lowerAscii (l : List Char) : List Char := l.map toLowerAscii

/-- Characters removed by JavaScript `String.trim` (whitespace and line
terminators; the common code points). -/
def isJsWhitespace (c : Char) : Bool :=
  c.toNat = 32 ∨ c.toNat = 9 ∨ c.toNat = 10 ∨ c.toNat = 13 ∨
  c.toNat = 11 ∨ c.toNat = 12 ∨ c.toNat = 160 ∨ c.toNat = 65279

/-- JavaScript `String.trim`: drop leading and trailing whitespace. -/
def jsTrim (l : List Char) : List Char :=
  ((l.dropWhile isJsWhitespace).reverse.dropWhile isJsWhitespace).reverse

/-- Error kinds of the tool, following §7 of the specification; each
constructor corresponds to one thrown message / exit path of `src/index.js`. -/
inductive Err where
  /-- "Shortcut name must be a non-empty string" / length / charset / reserved. -/
  | invalidName
  /-- "URL must be a non-empty string". -/
  | emptyUrl
  /-- "URL contains disallowed protocol" and
      "Only http and https URLs are allowed for security reasons". -/
  | disallowedScheme
  /-- "Invalid URL format. ...". -/
  | malformedUrl
  /-- "... is a built-in shortcut and cannot be overwritten/removed." -/
  | builtInConflict
  /-- "Custom shortcut ... not found." -/
  | notFound
  /-- "Search query cannot be empty." -/
  | emptyQuery
  /-- "Search query is too long (max 500 characters)." -/
  | queryTooLong
  /-- "Unknown search engine ...". -/
  | unknownEngine
deriving DecidableEq, Repr

/-- Characters admitted by the source's name pattern `/^[a-z0-9_-]+$/`. -/
def isValidNameChar (c : Char) : Bool :=
  (97 ≤ c.toNat ∧ c.toNat ≤ 122) ∨ (48 ≤ c.toNat ∧ c.toNat ≤ 57) ∨
  c = '_' ∨ c = '-'

/-- The reserved command names of `validateShortcutName` (src/index.js:178). -/
def reservedNames : List (List Char) :=
  ["add".data, "remove".data, "list".data, "search".data,
   "config".data, "help".data, "version".data]

/-- Embeds `validateShortcutName` (src/index.js:160-184): falsy-input check,
trim + lowercase, length bounds, charset pattern, reserved-word check. -/
def validateShortcutName (name : String) : Except Err String :=
  if name = "" then .error .invalidName
  else
    let t := lowerAscii (jsTrim name.data)
    if t.length = 0 ∨ 50 < t.length then .error .invalidName
    else if ¬ t.all isValidNameChar then .error .invalidName
    else if t ∈ reservedNames then .error .invalidName
    else .ok (String.mk t)

/-- Stated from the specification's words (§8): a string "matching
`[a-z0-9_-]{1,50}`" — between 1 and 50 characters, all from that class.
Used to compare the claimed acceptance set with the implementation's. -/
def specNamePattern (l : List Char) : Bool :=
  1 ≤ l.length ∧ l.length ≤ 50 ∧ l.all isValidNameChar

theorem specNamePattern_nil : specNamePattern [] = false := by decide

/-- C1 (counterexample): the claim says every string not itself matching
`[a-z0-9_-]{1,50}` is rejected, but `"ABC"` does not match that pattern
(uppercase letters are outside the class) and `validateShortcutName`
accepts it, returning `"abc"`: the source lowercases before matching. -/
theorem validateShortcutName_uppercase_ok :
    specNamePattern "ABC".data = false ∧
    validateShortcutName "ABC" = .ok "abc" := ⟨rfl, rfl⟩

/-- C1 (amended): `validateShortcutName` succeeds exactly when the trimmed,
lowercased form of the input matches `[a-z0-9_-]{1,50}` and is not a
reserved command name, and then returns that trimmed lowercase form. -/
theorem validateShortcutName_ok_iff (s t : String) :
    validateShortcutName s = .ok t ↔
      (specNamePattern (lowerAscii (jsTrim s.data)) = true ∧
       lowerAscii (jsTrim s.data) ∉ reservedNames ∧
       t = String.mk (lowerAscii (jsTrim s.data))) := by
  by_cases hs : s = ""
  · subst hs
    have hd : lowerAscii (jsTrim "".data) = [] := rfl
    simp [validateShortcutName, hd, specNamePattern_nil]
  · unfold validateShortcutName
    rw [if_neg hs]
    set n := lowerAscii (jsTrim s.data) with hn
    by_cases h1 : n.length = 0 ∨ 50 < n.length
    · rw [if_pos h1]
      simp only [specNamePattern, decide_eq_true_eq]
      constructor
      · intro h; cases h
      · rintro ⟨⟨ha, hb, _⟩, _⟩; omega
    · rw [if_neg h1]
      by_cases h2 : n.all isValidNameChar = true
      · rw [if_neg (not_not_intro h2)]
        by_cases h3 : n ∈ reservedNames
        · rw [if_pos h3]
          simp only [specNamePattern, decide_eq_true_eq]
          constructor
          · intro h; cases h
          · rintro ⟨_, hr, _⟩; exact absurd h3 hr
        · rw [if_neg h3]
          simp only [specNamePattern, decide_eq_true_eq, Except.ok.injEq]
          constructor
          · intro h; exact ⟨⟨by omega, by omega, h2⟩, h3, h.symm⟩
          · rintro ⟨_, _, rfl⟩; rfl
      · rw [if_pos h2]
        simp only [specNamePattern, decide_eq_true_eq]
        constructor
        · intro h; cases h
        · rintro ⟨⟨_, _, hall⟩, _⟩; exact absurd hall h2

/-- ASCII letter test (scheme-start character of the URL grammar). -/
def isAsciiAlpha (c : Char) : Bool :=
  (97 ≤ c.toNat ∧ c.toNat ≤ 122) ∨ (65 ≤ c.toNat ∧ c.toNat ≤ 90)

/-- ASCII digit test. -/
def isAsciiDigit (c : Char) : Bool := 48 ≤ c.toNat ∧ c.toNat ≤ 57

/-- Characters allowed after the first one in a URL scheme. -/
def isSchemeChar (c : Char) : Bool :=
  isAsciiAlpha c ∨ isAsciiDigit c ∨ c = '+' ∨ c = '-' ∨ c = '.'

/-- Splits `scheme ":" rest`, scanning scheme characters up to the first
colon; fails on a non-scheme character or if no colon is found. -/
def schemeSplit (acc : List Char) : List Char → Option (List Char × List Char)
  | [] => none
  | c :: rest =>
    if c = ':' then some (acc.reverse, rest)
    else if isSchemeChar c then schemeSplit (c :: acc) rest
    else none

/-- Result of the platform URL parser: the pieces the source reads
(`url.protocol`, `url.href`). -/
structure ParsedUrl where
  protocol : List Char
  href : List Char
deriving DecidableEq, Repr

/-- The "special" schemes of the WHATWG URL standard that take an
authority (host) component. -/
def specialSchemes : List (List Char) :=
  ["http".data, "https".data, "ws".data, "wss".data, "ftp".data]

/-- Model of the platform WHATWG `new URL(...)` constructor the source calls
(a Node.js builtin, external to the repository), restricted to what the
claims exercise: scheme parsing with lowercasing, authority parsing for
special schemes (host lowercased, empty path serialized as `/`), and opaque
paths for non-special schemes. Userinfo, ports, IDNA and percent-encoding
normalization are not modelled; inputs using them are rejected or passed
through verbatim. -/
def parseURL (l : List Char) : Option ParsedUrl :=
  match l with
  | [] => none
  | c :: _ =>
    if ¬ isAsciiAlpha c then none
    else
      match schemeSplit [] l with
      | none => none
      | some (scheme, rest) =>
        let schemeL := lowerAscii scheme
        if schemeL ∈ specialSchemes then
          let afterSlashes := rest.dropWhile (fun d => d = '/' ∨ d = '\\')
          let host := afterSlashes.takeWhile
            (fun d => ¬ (d = '/' ∨ d = '\\' ∨ d = '?' ∨ d = '#'))
          let tail := afterSlashes.dropWhile
            (fun d => ¬ (d = '/' ∨ d = '\\' ∨ d = '?' ∨ d = '#'))
          if host.isEmpty then none
          else if host.any (fun d => isJsWhitespace d ∨ d = '@' ∨ d = '%') then none
          else
            let path :=
              match tail with
              | [] => ['/']
              | d :: _ => if d = '?' ∨ d = '#' then '/' :: tail else tail
            some { protocol := schemeL ++ [':'],
                   href := schemeL ++ (':' :: '/' :: '/' :: (lowerAscii host ++ path)) }
        else
          some { protocol := schemeL ++ [':'],
                 href := schemeL ++ (':' :: rest) }

/-- The dangerous-scheme substring patterns of src/index.js:122-129
(each tested case-insensitively against the trimmed input). -/
def dangerousPatterns : List (List Char) :=
  ["javascript:".data, "data:".data, "vbscript:".data,
   "file:".data, "about:".data, "blob:".data]

/-- Embeds `validateUrl` (src/index.js:113-150): falsy-input check, trim,
case-insensitive dangerous-pattern substring scan, structural parse, and
the http/https protocol whitelist; on success returns the parser's
canonical serialization (`url.href`). -/
def validateUrl (s : String) : Except Err String :=
  if s = "" then .error .emptyUrl
  else
    let t := jsTrim s.data
    if dangerousPatterns.any (fun p => decide (p <:+: lowerAscii t)) then
      .error .disallowedScheme
    else
      match parseURL t with
      | none => .error .malformedUrl
      | some u =>
        if u.protocol = "http:".data ∨ u.protocol = "https:".data then
          .ok (String.mk u.href)
        else .error .disallowedScheme

/-- C3: `validateUrl` distinguishes malformed inputs from disallowed
schemes, and on success returns the parser's canonical serialization, not
the raw input: `"not a url"` is malformed, `"ftp://x.com"` parses but its
scheme is rejected, and `"https://Example.com/Path"` is accepted with the
host lowercased (a value different from the raw input). -/
theorem validateUrl_examples :
    validateUrl "not a url" = .error .malformedUrl ∧
    validateUrl "ftp://x.com" = .error .disallowedScheme ∧
    validateUrl "https://Example.com/Path" = .ok "https://example.com/Path" ∧
    ("https://example.com/Path" : String) ≠ "https://Example.com/Path" :=
  ⟨rfl, rfl, rfl, by decide⟩

theorem toNat_ofNat_valid {n : Nat} (h : n < 55296) : (Char.ofNat n).toNat = n := by
  rw [Char.ofNat, dif_pos (Or.inl (by exact_mod_cast h))]
  rfl

/-- Lowercasing never changes whether a character is whitespace. -/
theorem isJsWhitespace_toLowerAscii (c : Char) :
    isJsWhitespace (toLowerAscii c) = isJsWhitespace c := by
  unfold toLowerAscii
  by_cases h : 65 ≤ c.toNat ∧ c.toNat ≤ 90
  · rw [if_pos h]
    have hval : (Char.ofNat (c.toNat + 32)).toNat = c.toNat + 32 :=
      toNat_ofNat_valid (by omega)
    simp only [isJsWhitespace, hval, decide_eq_decide]
    omega
  · rw [if_neg h]

/-- Trimming commutes with ASCII lowercasing. -/
theorem jsTrim_lowerAscii (l : List Char) :
    jsTrim (lowerAscii l) = lowerAscii (jsTrim l) := by
  have hws : (isJsWhitespace ∘ toLowerAscii) = isJsWhitespace :=
    funext fun c => isJsWhitespace_toLowerAscii c
  unfold jsTrim lowerAscii
  rw [List.dropWhile_map, hws, ← List.map_reverse, List.dropWhile_map, hws,
    ← List.map_reverse]

/-- A dropped-prefix scan keeps any occurrence whose first character the
predicate does not accept. -/
theorem dropWhile_infix_keep {w : Char → Bool} (a : List Char) (b : List Char)
    (c : Char) (p₁ : List Char) (hc : w c = false) :
    ∃ a', List.dropWhile w (a ++ (c :: p₁) ++ b) = a' ++ (c :: p₁) ++ b := by
  induction a with
  | nil => exact ⟨[], by simp [List.dropWhile_cons, hc]⟩
  | cons x xs ih =>
    by_cases hx : w x = true
    · simpa [List.dropWhile_cons, hx] using ih
    · exact ⟨x :: xs, by simp [List.dropWhile_cons, hx]⟩

/-- A substring whose first and last characters are not whitespace survives
trimming. -/
theorem infix_jsTrim {p l : List Char} (hp : p <:+: l)
    (c : Char) (p₁ : List Char) (d : Char) (p₂ : List Char)
    (hpc : p = c :: p₁) (hpd : p.reverse = d :: p₂)
    (hc : isJsWhitespace c = false) (hd : isJsWhitespace d = false) :
    p <:+: jsTrim l := by
  obtain ⟨a, b, hab⟩ := hp
  subst hab
  unfold jsTrim
  obtain ⟨a', h1⟩ := dropWhile_infix_keep (w := isJsWhitespace) a b c p₁ hc
  rw [← hpc] at h1
  rw [h1]
  have hrev : (a' ++ p ++ b).reverse = b.reverse ++ (d :: p₂) ++ a'.reverse := by
    rw [← hpd]; simp
  rw [hrev]
  obtain ⟨b', h2⟩ :=
    dropWhile_infix_keep (w := isJsWhitespace) b.reverse a'.reverse d p₂ hd
  rw [h2]
  refine ⟨a', b'.reverse, ?_⟩
  rw [← hpd]
  simp

/-- Each dangerous pattern is nonempty and bounded by non-whitespace
characters on both sides. -/
theorem dangerous_shape :
    ∀ p ∈ dangerousPatterns, ∃ c p₁ d p₂,
      p = c :: p₁ ∧ p.reverse = d :: p₂ ∧
      isJsWhitespace c = false ∧ isJsWhitespace d = false := by
  intro p hp
  fin_cases hp <;> exact ⟨_, _, _, _, rfl, rfl, rfl, rfl⟩

/-- C2: any input containing one of the dangerous-scheme substrings
(`javascript:`, `data:`, `vbscript:`, `file:`, `about:`, `blob:`, matched
case-insensitively) is rejected by `validateUrl` with the disallowed-scheme
error, uniformly — including inputs whose remainder would parse as a valid
http(s) URL and inputs that would not parse at all, showing the check fires
before structural parsing. -/
theorem validateUrl_dangerous_substring (s : String) (p : List Char)
    (hp : p ∈ dangerousPatterns) (h : p <:+: lowerAscii s.data) :
    validateUrl s = .error .disallowedScheme := by
  obtain ⟨c, p₁, d, p₂, hpc, hpd, hc, hd⟩ := dangerous_shape p hp
  have hs : s ≠ "" := by
    rintro rfl
    have hnil : p = [] := List.eq_nil_of_sublist_nil h.sublist
    rw [hnil] at hpc
    cases hpc
  have h2 : p <:+: lowerAscii (jsTrim s.data) := by
    rw [← jsTrim_lowerAscii]
    exact infix_jsTrim h c p₁ d p₂ hpc hpd hc hd
  have hany : (dangerousPatterns.any
      (fun q => decide (q <:+: lowerAscii (jsTrim s.data)))) = true :=
    List.any_eq_true.mpr ⟨p, hp, decide_eq_true h2⟩
  unfold validateUrl
  rw [if_neg hs, if_pos (of_decide_eq_true (by simpa using hany))]

/-- C2 witness: a concrete dangerous input, with the pattern matched
case-insensitively, is rejected. -/
theorem validateUrl_dangerous_substring_witness :
    validateUrl "JavaScript:alert(1)" = .error .disallowedScheme :=
  validateUrl_dangerous_substring "JavaScript:alert(1)" "javascript:".data
    (by decide) (by decide)

/-- The built-in shortcut table of src/index.js:24-92, in source order. -/
def BUILT_IN_SHORTCUTS : List (String × String) :=
  [("youtube", "https://www.youtube.com"),
   ("facebook", "https://www.facebook.com"),
   ("twitter", "https://www.twitter.com"),
   ("x", "https://www.x.com"),
   ("instagram", "https://www.instagram.com"),
   ("linkedin", "https://www.linkedin.com"),
   ("reddit", "https://www.reddit.com"),
   ("pinterest", "https://www.pinterest.com"),
   ("tiktok", "https://www.tiktok.com"),
   ("snapchat", "https://www.snapchat.com"),
   ("gmail", "https://mail.google.com"),
   ("outlook", "https://outlook.live.com"),
   ("drive", "https://drive.google.com"),
   ("docs", "https://docs.google.com"),
   ("sheets", "https://sheets.google.com"),
   ("slides", "https://slides.google.com"),
   ("calendar", "https://calendar.google.com"),
   ("notion", "https://www.notion.so"),
   ("trello", "https://trello.com"),
   ("slack", "https://slack.com"),
   ("discord", "https://discord.com"),
   ("zoom", "https://zoom.us"),
   ("meet", "https://meet.google.com"),
   ("teams", "https://teams.microsoft.com"),
   ("github", "https://github.com"),
   ("gitlab", "https://gitlab.com"),
   ("bitbucket", "https://bitbucket.org"),
   ("stackoverflow", "https://stackoverflow.com"),
   ("npm", "https://www.npmjs.com"),
   ("codepen", "https://codepen.io"),
   ("codesandbox", "https://codesandbox.io"),
   ("vercel", "https://vercel.com"),
   ("netlify", "https://www.netlify.com"),
   ("netflix", "https://www.netflix.com"),
   ("prime", "https://www.primevideo.com"),
   ("hotstar", "https://www.hotstar.com"),
   ("spotify", "https://open.spotify.com"),
   ("twitch", "https://www.twitch.tv"),
   ("amazon", "https://www.amazon.com"),
   ("flipkart", "https://www.flipkart.com"),
   ("ebay", "https://www.ebay.com"),
   ("google", "https://www.google.com"),
   ("bing", "https://www.bing.com"),
   ("duckduckgo", "https://duckduckgo.com"),
   ("wikipedia", "https://www.wikipedia.org"),
   ("chatgpt", "https://chat.openai.com"),
   ("claude", "https://claude.ai"),
   ("gemini", "https://gemini.google.com"),
   ("perplexity", "https://www.perplexity.ai"),
   ("hackernews", "https://news.ycombinator.com"),
   ("medium", "https://medium.com"),
   ("devto", "https://dev.to")]

/-- Own-property test on a string-valued object
(`Object.prototype.hasOwnProperty.call`). -/
def jsHasOwn (m : List (String × String)) (k : String) : Bool :=
  m.any (fun e => e.1 = k)

/-- Own-property read on a string-valued object (keys are unique, as for
any JavaScript object; first match). -/
def jsGet (m : List (String × String)) (k : String) : Option String :=
  (m.find? (fun e => e.1 = k)).map (fun e => e.2)

/-- Property assignment `m[k] = v`: updates the existing key in place or
appends a new one, as JavaScript objects do. -/
def jsSet : List (String × String) → String → String → List (String × String)
  | [], k, v => [(k, v)]
  | e :: rest, k, v =>
    if e.1 = k then (k, v) :: rest else e :: jsSet rest k v

/-- Property removal `delete m[k]`. -/
def jsDelete (m : List (String × String)) (k : String) : List (String × String) :=
  m.filter (fun e => ¬ e.1 = k)

/-- Object spread `{...base, ...overlay}`: keys of `base` in order, then the
overlay's entries, with later assignments overwriting earlier values. -/
def jsSpread (base overlay : List (String × String)) : List (String × String) :=
  overlay.foldl (fun acc e => jsSet acc e.1 e.2) base

/-- The persisted configuration document, already well-formed (string map
of custom shortcuts plus the browser setting), as produced by `loadConfig`
on an intact file. -/
structure Config where
  customShortcuts : List (String × String)
  browser : String
deriving DecidableEq, Repr

/-- Embeds `getAllShortcuts` (src/index.js:262-268): built-ins spread first,
then the custom shortcuts. -/
def getAllShortcuts (disk : Config) : List (String × String) :=
  jsSpread BUILT_IN_SHORTCUTS disk.customShortcuts

/-- Embeds the `add` command action (src/index.js:390-411) as a function of
the persisted document: validates the name, then the URL, rejects built-in
collisions, otherwise stores the canonical URL and saves. The second
component is the document on disk after the action (unchanged on every
error path, which exits before `saveConfig`). -/
def addAction (disk : Config) (name url : String) :
    Except Err Unit × Config :=
  match validateShortcutName name with
  | .error e => (.error e, disk)
  | .ok n =>
    match validateUrl url with
    | .error e => (.error e, disk)
    | .ok u =>
      if jsHasOwn BUILT_IN_SHORTCUTS n then (.error .builtInConflict, disk)
      else (.ok (), { disk with customShortcuts := jsSet disk.customShortcuts n u })

/-- Embeds the `remove` command action (src/index.js:414-442): validates the
name, rejects built-ins, requires the custom shortcut to exist, then
deletes and saves. -/
def removeAction (disk : Config) (name : String) :
    Except Err Unit × Config :=
  match validateShortcutName name with
  | .error e => (.error e, disk)
  | .ok n =>
    if jsHasOwn BUILT_IN_SHORTCUTS n then (.error .builtInConflict, disk)
    else if ¬ jsHasOwn disk.customShortcuts n then (.error .notFound, disk)
    else (.ok (), { disk with customShortcuts := jsDelete disk.customShortcuts n })

theorem jsGet_jsSet_self (m : List (String × String)) (k v : String) :
    jsGet (jsSet m k v) k = some v := by
  induction m with
  | nil => simp [jsSet, jsGet, List.find?]
  | cons e rest ih =>
    by_cases he : e.1 = k
    · simp [jsSet, he, jsGet, List.find?]
    · simp only [jsSet, if_neg he]
      simpa [jsGet, List.find?, he] using ih

theorem jsGet_jsSet_ne (m : List (String × String)) (k k' v : String)
    (h : k' ≠ k) : jsGet (jsSet m k' v) k = jsGet m k := by
  induction m with
  | nil => simp [jsSet, jsGet, List.find?, h]
  | cons e rest ih =>
    by_cases he : e.1 = k'
    · simp [jsSet, he, jsGet, List.find?, h, he ▸ h]
    · simp only [jsSet, if_neg he]
      by_cases hek : e.1 = k
      · simp [jsGet, List.find?, hek]
      · simpa [jsGet, List.find?, hek] using ih

theorem jsGet_jsSpread_not_mem (base overlay : List (String × String))
    (k : String) (h : ∀ e ∈ overlay, e.1 ≠ k) :
    jsGet (jsSpread base overlay) k = jsGet base k := by
  induction overlay generalizing base with
  | nil => rfl
  | cons e rest ih =>
    have hek : e.1 ≠ k := h e (by simp)
    have hrest : ∀ e' ∈ rest, e'.1 ≠ k := fun e' he' => h e' (by simp [he'])
    show jsGet (jsSpread (jsSet base e.1 e.2) rest) k = jsGet base k
    rw [ih (jsSet base e.1 e.2) hrest, jsGet_jsSet_ne base k e.1 e.2 hek]

/-- After setting `k ↦ v` in an overlay with unique keys, spreading over any
base yields `v` at `k`. -/
theorem jsGet_jsSpread_jsSet (base m : List (String × String)) (k v : String)
    (hnd : (m.map Prod.fst).Nodup) :
    jsGet (jsSpread base (jsSet m k v)) k = some v := by
  induction m generalizing base with
  | nil =>
    show jsGet (jsSpread (jsSet base k v) []) k = some v
    simpa [jsSpread] using jsGet_jsSet_self base k v
  | cons e rest ih =>
    simp only [List.map_cons, List.nodup_cons] at hnd
    by_cases he : e.1 = k
    · rw [jsSet, if_pos he]
      show jsGet (jsSpread (jsSet base k v) rest) k = some v
      have hrest : ∀ e' ∈ rest, e'.1 ≠ k := by
        intro e' he' hek
        exact hnd.1 (he ▸ hek ▸ List.mem_map_of_mem Prod.fst he')
      rw [jsGet_jsSpread_not_mem _ rest k hrest]
      exact jsGet_jsSet_self base k v
    · rw [jsSet, if_neg he]
      show jsGet (jsSpread (jsSet base e.1 e.2) (jsSet rest k v)) k = some v
      exact ih (jsSet base e.1 e.2) hnd.2

/-- C4: for a valid shortcut name that is not a built-in key and a valid
URL, the add action succeeds, and looking the name up in the effective
shortcut table afterwards returns the validator's canonical URL (not the
raw input). The document's custom keys are unique, as JavaScript object
keys always are. -/
theorem registerCustom_roundtrip (disk : Config) (name url n u : String)
    (hnd : (disk.customShortcuts.map Prod.fst).Nodup)
    (hn : validateShortcutName name = .ok n)
    (hb : jsHasOwn BUILT_IN_SHORTCUTS n = false)
    (hu : validateUrl url = .ok u) :
    (addAction disk name url).1 = .ok () ∧
    jsGet (getAllShortcuts (addAction disk name url).2) n = some u := by
  unfold addAction
  rw [hn, hu]
  simp only [hb, Bool.false_eq_true, if_false]
  exact ⟨trivial, jsGet_jsSpread_jsSet BUILT_IN_SHORTCUTS disk.customShortcuts n u hnd⟩

/-- C4 witness: adding `mysite ↦ https://example.com` to an empty document
and resolving yields the canonicalized URL `https://example.com/`. -/
theorem registerCustom_roundtrip_witness :
    (addAction ⟨[], "default"⟩ "mysite" "https://example.com").1 = .ok () ∧
    jsGet (getAllShortcuts (addAction ⟨[], "default"⟩ "mysite"
      "https://example.com").2) "mysite" = some "https://example.com/" :=
  registerCustom_roundtrip ⟨[], "default"⟩ "mysite" "https://example.com"
    "mysite" "https://example.com/" (by simp) rfl (by decide) rfl

/-- C5: built-ins are immutable through the public operations — with a
valid name that is a built-in key and a valid URL, the add action fails
with the built-in-conflict error and leaves the document unchanged, and the
remove action likewise fails with the built-in-conflict error and leaves
the document unchanged. -/
theorem builtin_immutable (disk : Config) (name url n u : String)
    (hn : validateShortcutName name = .ok n)
    (hb : jsHasOwn BUILT_IN_SHORTCUTS n = true)
    (hu : validateUrl url = .ok u) :
    addAction disk name url = (.error .builtInConflict, disk) ∧
    removeAction disk name = (.error .builtInConflict, disk) := by
  unfold addAction removeAction
  rw [hn, hu]
  simp [hb]

/-- C5 witness: `add github https://evil.example` and `remove github` both
fail with the built-in-conflict error and leave a sample document intact. -/
theorem builtin_immutable_witness :
    addAction ⟨[("mysite", "https://example.com/")], "chrome"⟩ "github"
      "https://evil.example" =
      (.error .builtInConflict, ⟨[("mysite", "https://example.com/")], "chrome"⟩) ∧
    removeAction ⟨[("mysite", "https://example.com/")], "chrome"⟩ "github" =
      (.error .builtInConflict, ⟨[("mysite", "https://example.com/")], "chrome"⟩) :=
  builtin_immutable ⟨[("mysite", "https://example.com/")], "chrome"⟩ "github"
    "https://evil.example" "github" "https://evil.example/" rfl (by decide) rfl

/-- Stated from the specification's words: code-point lexicographic order
on names, the order the claim's phrase "sorted lexicographically" asserts
of the list output. -/
def lexLe : List Char → List Char → Bool
  | [], _ => true
  | _ :: _, [] => false
  | a :: as, b :: bs =>
    if a.toNat < b.toNat then true
    else if a.toNat = b.toNat then lexLe as bs
    else false

/-- Primary collation weight of a character under the CLDR root collation
used by ICU, hence by the source's `localeCompare` comparator
(src/index.js:468), restricted to the validated shortcut-name alphabet:
low line sorts first, then hyphen-minus, then digits, then lowercase
letters. Characters outside the validated alphabet, which cannot occur in
stored names, are placed after in code-point order. -/
def charCollationWeight (c : Char) : Nat :=
  if c.toNat = 95 then 0
  else if c.toNat = 45 then 1
  else if 48 ≤ c.toNat ∧ c.toNat ≤ 57 then 2 + (c.toNat - 48)
  else if 97 ≤ c.toNat ∧ c.toNat ≤ 122 then 12 + (c.toNat - 97)
  else 38 + c.toNat

/-- Lexicographic comparison of weight sequences. -/
def weightLexLe : List Nat → List Nat → Bool
  | [], _ => true
  | _ :: _, [] => false
  | a :: as, b :: bs =>
    if a < b then true
    else if a = b then weightLexLe as bs
    else false

theorem weightLexLe_total : ∀ (a b : List Nat),
    (weightLexLe a b || weightLexLe b a) = true := by
  intro a
  induction a with
  | nil => intro b; simp [weightLexLe]
  | cons x xs ih =>
    intro b
    cases b with
    | nil => simp [weightLexLe]
    | cons y ys =>
      by_cases h1 : x < y
      · simp [weightLexLe, h1]
      · by_cases h2 : x = y
        · have h4 : ¬ y < x := by omega
          have h5 : y = x := h2.symm
          simp only [weightLexLe, if_neg h1, if_pos h2, if_neg h4, if_pos h5]
          exact ih ys
        · have h3 : y < x := by omega
          simp [weightLexLe, h1, h2, h3]

theorem weightLexLe_trans : ∀ (a b c : List Nat),
    weightLexLe a b = true → weightLexLe b c = true →
    weightLexLe a c = true := by
  intro a
  induction a with
  | nil => intro b c _ _; simp [weightLexLe]
  | cons x xs ih =>
    intro b c hab hbc
    cases b with
    | nil => simp [weightLexLe] at hab
    | cons y ys =>
      cases c with
      | nil => simp [weightLexLe] at hbc
      | cons z zs =>
        simp only [weightLexLe] at hab hbc ⊢
        by_cases h1 : x < y
        · by_cases h2 : y < z
          · have : x < z := by omega
            simp [this]
          · rw [if_neg h2] at hbc
            by_cases h3 : y = z
            · have : x < z := by omega
              simp [this]
            · rw [if_neg h3] at hbc; cases hbc
        · rw [if_neg h1] at hab
          by_cases h4 : x = y
          · rw [if_pos h4] at hab
            by_cases h2 : y < z
            · have : x < z := by omega
              simp [this]
            · rw [if_neg h2] at hbc
              by_cases h3 : y = z
              · have h5 : ¬ x < z := by omega
                have h6 : x = z := by omega
                rw [if_pos h3] at hbc
                rw [if_neg h5, if_pos h6]
                exact ih ys zs hab hbc
              · rw [if_neg h3] at hbc; cases hbc
          · rw [if_neg h4] at hab; cases hab

/-- Model of the source's sort comparator `a[0].localeCompare(b[0])`
(src/index.js:468): names compare by their collation-weight sequences. -/
def localeCompareLe (a b : List Char) : Bool :=
  weightLexLe (a.map charCollationWeight) (b.map charCollationWeight)

/-- Sort comparator of the `list` action, by shortcut name. -/
def rowLe (a b : String × String × String) : Bool :=
  localeCompareLe a.1.data b.1.data

theorem rowLe_total (a b : String × String × String) :
    (rowLe a b || rowLe b a) = true :=
  weightLexLe_total _ _

theorem rowLe_trans (a b c : String × String × String)
    (hab : rowLe a b = true) (hbc : rowLe b c = true) : rowLe a c = true :=
  weightLexLe_trans _ _ _ hab hbc

/-- Embeds the `list` command action (src/index.js:450-471): built-in rows
unless `--custom`, custom rows unless `--builtin`, then sorted by name.
Each row is (name, url, type). -/
def listAction (disk : Config) (builtinFlag customFlag : Bool) :
    List (String × String × String) :=
  ((if customFlag then []
    else BUILT_IN_SHORTCUTS.map (fun e => (e.1, e.2, "built-in"))) ++
   (if builtinFlag then []
    else disk.customShortcuts.map (fun e => (e.1, e.2, "custom")))).mergeSort rowLe

/-- Characters that are lowercase letters or digits: the part of the name
alphabet on which collation order and code-point order agree. -/
def isPlainNameChar (c : Char) : Bool :=
  (97 ≤ c.toNat ∧ c.toNat ≤ 122) ∨ (48 ≤ c.toNat ∧ c.toNat ≤ 57)

/-- On digits and lowercase letters the collation weight is strictly
monotone in the code point. -/
theorem charCollationWeight_agree (c d : Char)
    (hc : isPlainNameChar c = true) (hd : isPlainNameChar d = true) :
    ((charCollationWeight c < charCollationWeight d) ↔ (c.toNat < d.toNat)) ∧
    ((charCollationWeight c = charCollationWeight d) ↔ (c.toNat = d.toNat)) := by
  simp only [isPlainNameChar, decide_eq_true_eq] at hc hd
  unfold charCollationWeight
  split_ifs <;> omega

/-- Where all characters are digits or lowercase letters, the collation
order coincides with code-point lexicographic order. -/
theorem localeCompareLe_eq_lexLe : ∀ (a b : List Char),
    a.all isPlainNameChar = true → b.all isPlainNameChar = true →
    localeCompareLe a b = lexLe a b := by
  intro a
  induction a with
  | nil => intro b _ _; rfl
  | cons c cs ih =>
    intro b ha hb
    cases b with
    | nil => rfl
    | cons d ds =>
      simp only [List.all_cons, Bool.and_eq_true] at ha hb
      have hagree := charCollationWeight_agree c d ha.1 hb.1
      simp only [localeCompareLe, List.map_cons, weightLexLe, lexLe]
      by_cases h1 : charCollationWeight c < charCollationWeight d
      · rw [if_pos h1, if_pos (hagree.1.mp h1)]
      · rw [if_neg h1, if_neg (fun hlt => h1 (hagree.1.mpr hlt))]
        by_cases h2 : charCollationWeight c = charCollationWeight d
        · rw [if_pos h2, if_pos (hagree.2.mp h2)]
          exact ih ds ha.2 hb.2
        · rw [if_neg h2, if_neg (fun heq => h2 (hagree.2.mpr heq))]

/-- Every built-in shortcut name uses only lowercase letters. -/
theorem builtin_names_plain :
    ∀ e ∈ BUILT_IN_SHORTCUTS, e.1.data.all isPlainNameChar = true := by decide

/-- When the document's custom names avoid low line and hyphen-minus, so
does every row the unfiltered `list` action emits. -/
theorem listAction_names_plain (disk : Config)
    (hclean : ∀ e ∈ disk.customShortcuts, e.1.data.all isPlainNameChar = true) :
    ∀ r ∈ listAction disk false false, r.1.data.all isPlainNameChar = true := by
  intro r hr
  unfold listAction at hr
  rw [List.mem_mergeSort] at hr
  simp only [Bool.false_eq_true, if_false] at hr
  rcases List.mem_append.mp hr with h | h
  · obtain ⟨e, he, rfl⟩ := List.mem_map.mp h
    exact builtin_names_plain e he
  · obtain ⟨e, he, rfl⟩ := List.mem_map.mp h
    exact hclean e he

/-- C7 (counterexample): with custom shortcuts `a_` and `a0`, the program's
comparator places `a_` first — low line sorts before digits in the root
collation — while code-point lexicographic order demands `a0` before `a_`:
the unfiltered output is not sorted lexicographically by name, refuting
the claim's sortedness conjunct. -/
theorem list_not_lex_sorted :
    ¬ List.Pairwise (fun a b => lexLe a.1.data b.1.data = true)
      (listAction ⟨[("a_", "https://example.com/"),
        ("a0", "https://example.com/")], "default"⟩ false false) := by
  intro hlex
  set l := listAction ⟨[("a_", "https://example.com/"),
    ("a0", "https://example.com/")], "default"⟩ false false with hl
  have hmem : ∀ r ∈ [("a_", "https://example.com/", "custom"),
      ("a0", "https://example.com/", "custom")], r ∈ l := by
    intro r hr
    simp only [List.mem_cons, List.not_mem_nil, or_false] at hr
    rw [hl]
    unfold listAction
    rw [List.mem_mergeSort]
    simp only [Bool.false_eq_true, if_false]
    refine List.mem_append.mpr (Or.inr ?_)
    rcases hr with rfl | rfl
    · exact List.mem_map.mpr ⟨("a_", "https://example.com/"), by decide, rfl⟩
    · exact List.mem_map.mpr ⟨("a0", "https://example.com/"), by decide, rfl⟩
  have hA : ("a_", "https://example.com/", "custom") ∈ l := hmem _ (by decide)
  have h0 : ("a0", "https://example.com/", "custom") ∈ l := hmem _ (by decide)
  have hsorted : List.Pairwise (fun a b => rowLe a b = true) l :=
    List.sorted_mergeSort rowLe_trans (fun a b => rowLe_total a b) _
  obtain ⟨i, hi⟩ := List.mem_iff_get.mp hA
  obtain ⟨j, hj⟩ := List.mem_iff_get.mp h0
  have hij : (i : Nat) ≠ (j : Nat) := by
    intro hEq
    have hgets : l.get i = l.get j := by
      congr 1
      exact Fin.ext hEq
    rw [hi, hj] at hgets
    exact absurd hgets (by decide)
  rcases Nat.lt_or_ge (i : Nat) (j : Nat) with hlt | hge
  · have hp := List.pairwise_iff_get.mp hlex i j hlt
    rw [hi, hj] at hp
    exact absurd hp (by decide)
  · have hlt2 : (j : Nat) < (i : Nat) := by omega
    have hp := List.pairwise_iff_get.mp hsorted j i hlt2
    rw [hj, hi] at hp
    exact absurd hp (by decide)

set_option maxRecDepth 4000 in
/-- C7 (amended): with neither filter flag set, the `list` action produces
exactly one row per built-in plus one per custom shortcut, and the rows
are sorted by the locale-collation comparator (low line, then hyphen-minus,
then digits, then letters); whenever no custom name contains a low line or
hyphen-minus (built-in names never do), that order is exactly code-point
lexicographic order by name. -/
theorem list_count_sorted_collation (disk : Config) :
    (listAction disk false false).length =
      BUILT_IN_SHORTCUTS.length + disk.customShortcuts.length ∧
    List.Pairwise (fun a b => rowLe a b = true) (listAction disk false false) ∧
    ((∀ e ∈ disk.customShortcuts, e.1.data.all isPlainNameChar = true) →
      List.Pairwise (fun a b => lexLe a.1.data b.1.data = true)
        (listAction disk false false)) := by
  have hsorted : List.Pairwise (fun a b => rowLe a b = true)
      (listAction disk false false) :=
    List.sorted_mergeSort rowLe_trans (fun a b => rowLe_total a b) _
  refine ⟨?_, hsorted, fun hclean => ?_⟩
  · unfold listAction
    simp only [Bool.false_eq_true, if_false, List.length_mergeSort,
      List.length_append, List.length_map]
  · have hnames := listAction_names_plain disk hclean
    refine hsorted.imp_of_mem (fun ha hb hr => ?_)
    rw [← localeCompareLe_eq_lexLe _ _ (hnames _ ha) (hnames _ hb)]
    exact hr

/-- C7 witness: the coincidence clause instantiated at a document with one
plain custom name — the output is lexicographically sorted by name. -/
theorem list_count_sorted_collation_witness :
    List.Pairwise (fun a b => lexLe a.1.data b.1.data = true)
      (listAction ⟨[("mysite", "https://example.com/")], "default"⟩
        false false) :=
  (list_count_sorted_collation
    ⟨[("mysite", "https://example.com/")], "default"⟩).2.2 (by decide)

/-- JavaScript `Array.join(' ')` over the variadic query parts. -/
def joinSpace : List String → List Char
  | [] => []
  | [s] => s.data
  | s :: r :: rest => s.data ++ (' ' :: joinSpace (r :: rest))

/-- Characters `encodeURIComponent` leaves unescaped. -/
def isUriUnreserved (c : Char) : Bool :=
  isAsciiAlpha c ∨ isAsciiDigit c ∨ c = '-' ∨ c = '_' ∨ c = '.' ∨
  c = '!' ∨ c = '~' ∨ c = '*' ∨ c.toNat = 39 ∨ c = '(' ∨ c = ')'

/-- Uppercase hexadecimal digit of a value below 16. -/
def hexDigit (n : Nat) : Char :=
  if n < 10 then Char.ofNat (48 + n) else Char.ofNat (55 + n)

/-- Percent-encoding of one byte. -/
def percentByte (b : Nat) : List Char := ['%', hexDigit (b / 16), hexDigit (b % 16)]

/-- UTF-8 byte values of one character. -/
def utf8Bytes (c : Char) : List Nat :=
  let n := c.toNat
  if n < 128 then [n]
  else if n < 2048 then [192 + n / 64, 128 + n % 64]
  else if n < 65536 then [224 + n / 4096, 128 + (n / 64) % 64, 128 + n % 64]
  else [240 + n / 262144, 128 + (n / 4096) % 64, 128 + (n / 64) % 64, 128 + n % 64]

/-- Model of the platform `encodeURIComponent` builtin used by the source:
unreserved characters pass through, all others are percent-encoded from
their UTF-8 bytes. -/
def encodeURIComponent (l : List Char) : List Char :=
  l.foldr
    (fun c acc =>
      (if isUriUnreserved c then [c] else (utf8Bytes c).foldr
        (fun b acc2 => percentByte b ++ acc2) []) ++ acc)
    []

/-- The search-engine prefix table of src/index.js:499-503. -/
def searchEngines : List (String × String) :=
  [("google", "https://www.google.com/search?q="),
   ("bing", "https://www.bing.com/search?q="),
   ("duckduckgo", "https://duckduckgo.com/?q=")]

/-- Embeds the `search` command action (src/index.js:484-513) up to the URL
handed to the launcher: join the parts, trim, reject empty and over-long
queries, resolve the engine, then build the percent-encoded search URL. -/
def searchAction (queryParts : List String) (engine : String) :
    Except Err (List Char) :=
  let query := jsTrim (joinSpace queryParts)
  if query.isEmpty then .error .emptyQuery
  else if 500 < query.length then .error .queryTooLong
  else
    match jsGet searchEngines (String.mk (lowerAscii engine.data)) with
    | none => .error .unknownEngine
    | some pre => .ok (pre.data ++ encodeURIComponent query)

/-- C8: a search invocation whose joined, trimmed query is 600 characters
long fails with the query-too-long error, before any search URL is built
(the error is returned ahead of engine resolution and URL assembly). -/
theorem search_long_query_rejected (queryParts : List String) (engine : String)
    (h : (jsTrim (joinSpace queryParts)).length = 600) :
    searchAction queryParts engine = .error .queryTooLong := by
  have hne : jsTrim (joinSpace queryParts) ≠ [] := by
    intro hc
    rw [hc] at h
    exact absurd h (by decide)
  unfold searchAction
  rw [if_neg (fun hc => hne (List.isEmpty_iff.mp hc)), if_pos (by rw [h]; omega)]

/-- C8 witness: a single 600-character query part is rejected. -/
theorem search_long_query_rejected_witness :
    searchAction [String.mk (List.replicate 600 'a')] "google" =
      .error .queryTooLong := by
  apply search_long_query_rejected
  have hww : isJsWhitespace 'a' = false := rfl
  have hdw : List.dropWhile isJsWhitespace (List.replicate 600 'a') =
      List.replicate 600 'a' := by
    rw [show (600 : Nat) = 599 + 1 from rfl, List.replicate_succ,
      List.dropWhile_cons, hww]
    simp only [Bool.false_eq_true, if_false]
  show (jsTrim (List.replicate 600 'a')).length = 600
  unfold jsTrim
  rw [hdw, List.reverse_replicate, hdw, List.reverse_replicate,
    List.length_replicate]

/-- A JavaScript property-read result on a plain object: absent
(`undefined`), an own string value, or a value inherited from
`Object.prototype` (all of which are functions or objects, hence truthy). -/
inductive JsPropVal where
  | undefined
  | str (s : String)
  | protoVal (key : String)
deriving DecidableEq, Repr

/-- Property names every object-literal inherits from `Object.prototype`
(reads of these on `BROWSERS` return a function or object, not
`undefined`). -/
def objectProtoKeys : List String :=
  ["constructor", "hasOwnProperty", "isPrototypeOf", "propertyIsEnumerable",
   "toLocaleString", "toString", "valueOf", "__proto__",
   "__defineGetter__", "__defineSetter__", "__lookupGetter__",
   "__lookupSetter__"]

/-- The supported-browser table of src/index.js:95-103; `default` maps to
`undefined` (an own property with no app identifier). -/
def BROWSERS : List (String × Option String) :=
  [("chrome", some "chrome"), ("firefox", some "firefox"),
   ("safari", some "safari"), ("edge", some "msedge"),
   ("brave", some "brave"), ("opera", some "opera"),
   ("default", none)]

/-- Unguarded JavaScript object indexing `BROWSERS[k]`: an own property
(possibly holding `undefined`) shadows the prototype; otherwise the read
walks up to `Object.prototype`. -/
def jsIndexBrowsers (k : String) : JsPropVal :=
  match BROWSERS.find? (fun e => e.1 = k) with
  | some e =>
    match e.2 with
    | some s => .str s
    | none => .undefined
  | none => if k ∈ objectProtoKeys then .protoVal k else .undefined

/-- JavaScript truthiness of a property-read result (nonempty strings,
functions and objects are truthy). -/
def jsTruthyProp : JsPropVal → Bool
  | .undefined => false
  | .str s => ¬ s = ""
  | .protoVal _ => true

/-- The per-browser incognito argument table of src/index.js:287-294,
keyed by app identifier. -/
def incognitoArgs : List (String × List String) :=
  [("chrome", ["--incognito"]), ("firefox", ["--private-window"]),
   ("safari", []), ("msedge", ["--inprivate"]),
   ("brave", ["--incognito"]), ("opera", ["--private"])]

/-- The launch instruction handed to the external OS-open facility: the
`app` value placed in `openOptions` (none when no app key is set), its
argument list, and the two informational notices the action can print. -/
structure LaunchInstruction where
  app : Option JsPropVal
  appArgs : List String
  defaultIncognitoNote : Bool
  safariNote : Bool
deriving DecidableEq, Repr

/-- Embeds `openUrl` (src/index.js:275-312) up to the external `open` call:
builds the launch instruction from the persisted browser setting and the
incognito flag. No validation of the setting happens here; the setting is
used only as an index into `BROWSERS`. -/
def openUrlInstruction (browserSetting : String) (incognito : Bool) :
    LaunchInstruction :=
  let browserApp := jsIndexBrowsers browserSetting
  if jsTruthyProp browserApp then
    if incognito then
      let argsLookup : Option (List String) :=
        match browserApp with
        | .str a => (incognitoArgs.find? (fun e => e.1 = a)).map (fun e => e.2)
        | _ => none
      match argsLookup with
      | some args =>
        if 0 < args.length then
          { app := some browserApp, appArgs := args,
            defaultIncognitoNote := false, safariNote := false }
        else if browserApp = .str "safari" then
          { app := some browserApp, appArgs := [],
            defaultIncognitoNote := false, safariNote := true }
        else
          { app := some browserApp, appArgs := [],
            defaultIncognitoNote := false, safariNote := false }
      | none =>
        if browserApp = .str "safari" then
          { app := some browserApp, appArgs := [],
            defaultIncognitoNote := false, safariNote := true }
        else
          { app := some browserApp, appArgs := [],
            defaultIncognitoNote := false, safariNote := false }
    else
      { app := some browserApp, appArgs := [],
        defaultIncognitoNote := false, safariNote := false }
  else
    { app := none, appArgs := [],
      defaultIncognitoNote := incognito, safariNote := false }

/-- C9: with the `default` setting the instruction carries no app
identifier and requesting incognito only yields the informational notice;
each concrete browser receives its fixed incognito flag (`chrome` and
`brave` `--incognito`, `firefox` `--private-window`, `edge` — app
`msedge` — `--inprivate`, `opera` `--private`), and `safari` gets no flag
but the informational notice. -/
theorem launch_instruction_table :
    (∀ inc : Bool, (openUrlInstruction "default" inc).app = none) ∧
    openUrlInstruction "default" true =
      { app := none, appArgs := [], defaultIncognitoNote := true,
        safariNote := false } ∧
    openUrlInstruction "chrome" true =
      { app := some (.str "chrome"), appArgs := ["--incognito"],
        defaultIncognitoNote := false, safariNote := false } ∧
    openUrlInstruction "firefox" true =
      { app := some (.str "firefox"), appArgs := ["--private-window"],
        defaultIncognitoNote := false, safariNote := false } ∧
    openUrlInstruction "edge" true =
      { app := some (.str "msedge"), appArgs := ["--inprivate"],
        defaultIncognitoNote := false, safariNote := false } ∧
    openUrlInstruction "brave" true =
      { app := some (.str "brave"), appArgs := ["--incognito"],
        defaultIncognitoNote := false, safariNote := false } ∧
    openUrlInstruction "opera" true =
      { app := some (.str "opera"), appArgs := ["--private"],
        defaultIncognitoNote := false, safariNote := false } ∧
    openUrlInstruction "safari" true =
      { app := some (.str "safari"), appArgs := [],
        defaultIncognitoNote := false, safariNote := true } := by
  refine ⟨fun inc => ?_, rfl, rfl, rfl, rfl, rfl, rfl, rfl⟩
  cases inc <;> rfl

/-- JSON values, as produced by `JSON.parse`. -/
inductive JValue where
  | jnull
  | jbool (b : Bool)
  | jnum (n : Int)
  | jstr (s : String)
  | jarr (elems : List JValue)
  | jobj (fields : List (String × JValue))

/-- The state of the config file as the loader sees it: missing, unreadable
(`readFileSync` throws), unparsable (`JSON.parse` throws), or a parsed
JSON document. -/
inductive FileState where
  | absent
  | readError
  | badJson
  | doc (v : JValue)

/-- What `loadConfig` returns: the two values the rest of the program
reads, kept as raw JSON values because the loader performs no further
validation of their contents. -/
structure LoadedConfig where
  customShortcuts : JValue
  browser : JValue

/-- The `defaultConfig` object of src/index.js:212-217. -/
def defaultLoadedConfig : LoadedConfig :=
  { customShortcuts := .jobj [], browser := .jstr "default" }

/-- Own-field read on a JSON value: only objects have (string-keyed)
fields; reads of the loader's fixed field names on arrays or primitives
give `undefined` (`none`). -/
def jsFieldOf : JValue → String → Option JValue
  | .jobj fields, k => (fields.find? (fun e => e.1 = k)).map (fun e => e.2)
  | _, _ => none

/-- JavaScript truthiness of a JSON value. -/
def jsTruthyJ : JValue → Bool
  | .jnull => false
  | .jbool b => b
  | .jnum n => ¬ n = 0
  | .jstr s => ¬ s = ""
  | .jarr _ => true
  | .jobj _ => true

/-- The `x || d` defaulting idiom: keeps `x` when present and truthy. -/
def jsOrDefault (x : Option JValue) (d : JValue) : JValue :=
  match x with
  | some v => if jsTruthyJ v then v else d
  | none => d

/-- Optional chaining `x?.k`: `undefined` when `x` is `undefined` or
`null`, else a property read. -/
def optChainField (x : Option JValue) (k : String) : Option JValue :=
  match x with
  | none => none
  | some .jnull => none
  | some v => jsFieldOf v k

/-- The `typeof config === 'object' && config !== null` test of
src/index.js:228 (arrays pass it; `null` is excluded explicitly). -/
def isObjectNonNull : JValue → Bool
  | .jarr _ => true
  | .jobj _ => true
  | _ => false

/-- Embeds `loadConfig` (src/index.js:211-243): defaults when the file is
absent; a warning plus defaults when reading or parsing throws or the
document is not an object; otherwise per-field extraction with `||`
defaulting. The boolean is true when the non-fatal warning is printed. -/
def loadConfig : FileState → LoadedConfig × Bool
  | .absent => (defaultLoadedConfig, false)
  | .readError => (defaultLoadedConfig, true)
  | .badJson => (defaultLoadedConfig, true)
  | .doc v =>
    if isObjectNonNull v then
      ({ customShortcuts := jsOrDefault (jsFieldOf v "customShortcuts") (.jobj []),
         browser := jsOrDefault (optChainField (jsFieldOf v "settings") "browser")
           (.jstr "default") }, false)
    else (defaultLoadedConfig, true)

/-- C6: `loadConfig` never fails the calling operation — a missing file
yields the defaults silently; an unreadable file, unparsable content, or a
non-object document yield a warning and the defaults; and on an object
document each missing sub-field (`customShortcuts`, `settings.browser`) is
defaulted individually, the other field being honoured, with no warning. -/
theorem loadConfig_never_fails :
    loadConfig .absent = (defaultLoadedConfig, false) ∧
    loadConfig .readError = (defaultLoadedConfig, true) ∧
    loadConfig .badJson = (defaultLoadedConfig, true) ∧
    (∀ v, isObjectNonNull v = false →
      loadConfig (.doc v) = (defaultLoadedConfig, true)) ∧
    (∀ fields, jsFieldOf (.jobj fields) "customShortcuts" = none →
      (loadConfig (.doc (.jobj fields))).1.customShortcuts = .jobj [] ∧
      (loadConfig (.doc (.jobj fields))).2 = false) ∧
    (∀ fields, jsFieldOf (.jobj fields) "settings" = none →
      (loadConfig (.doc (.jobj fields))).1.browser = .jstr "default" ∧
      (loadConfig (.doc (.jobj fields))).2 = false) ∧
    (∀ b, jsTruthyJ b = true →
      loadConfig (.doc (.jobj [("settings", .jobj [("browser", b)])])) =
        ({ customShortcuts := .jobj [], browser := b }, false)) ∧
    (∀ cs, jsTruthyJ cs = true →
      loadConfig (.doc (.jobj [("customShortcuts", cs)])) =
        ({ customShortcuts := cs, browser := .jstr "default" }, false)) := by
  refine ⟨rfl, rfl, rfl, fun v hv => ?_, fun fields hf => ?_, fun fields hf => ?_,
    fun b hb => ?_, fun cs hcs => ?_⟩
  · simp [loadConfig, hv]
  · refine ⟨?_, rfl⟩
    simp [loadConfig, isObjectNonNull, hf, jsOrDefault]
  · refine ⟨?_, rfl⟩
    simp [loadConfig, isObjectNonNull, hf, optChainField, jsOrDefault]
  · have h1 : jsFieldOf (.jobj [("settings", JValue.jobj [("browser", b)])])
        "customShortcuts" = none := rfl
    have h2 : optChainField
        (jsFieldOf (.jobj [("settings", JValue.jobj [("browser", b)])]) "settings")
        "browser" = some b := rfl
    simp [loadConfig, isObjectNonNull, h1, h2, jsOrDefault, hb]
  · have h1 : jsFieldOf (.jobj [("customShortcuts", cs)]) "customShortcuts" =
        some cs := rfl
    have h2 : optChainField
        (jsFieldOf (.jobj [("customShortcuts", cs)]) "settings") "browser" =
        none := rfl
    simp [loadConfig, isObjectNonNull, h1, h2, jsOrDefault, hcs]

/-- C6 witness: the general clauses instantiated — a numeric document, an
empty object, a settings-only document and a shortcuts-only document. -/
theorem loadConfig_never_fails_witness :
    loadConfig (.doc (.jnum 5)) = (defaultLoadedConfig, true) ∧
    (loadConfig (.doc (.jobj []))).1.customShortcuts = .jobj [] ∧
    (loadConfig (.doc (.jobj []))).1.browser = .jstr "default" ∧
    loadConfig (.doc (.jobj [("settings", .jobj [("browser", .jstr "chrome")])])) =
      ({ customShortcuts := .jobj [], browser := .jstr "chrome" }, false) ∧
    loadConfig (.doc (.jobj [("customShortcuts",
        .jobj [("mysite", .jstr "https://example.com/")])])) =
      ({ customShortcuts := .jobj [("mysite", .jstr "https://example.com/")],
         browser := .jstr "default" }, false) :=
  ⟨loadConfig_never_fails.2.2.2.1 (.jnum 5) rfl,
   (loadConfig_never_fails.2.2.2.2.1 [] rfl).1,
   (loadConfig_never_fails.2.2.2.2.2.1 [] rfl).1,
   loadConfig_never_fails.2.2.2.2.2.2.1 (.jstr "chrome") rfl,
   loadConfig_never_fails.2.2.2.2.2.2.2
     (.jobj [("mysite", .jstr "https://example.com/")]) rfl⟩

/-- C10 (counterexample): the claim quantifies over every truthy string
outside the supported set, but `"constructor"` — a truthy string that is
not a supported browser key — is loaded unvalidated and then read from
`BROWSERS` without an own-property guard, so the inherited
`Object.prototype.constructor` value is truthy and an app value is placed
in the launch instruction: the instruction differs from the default one. -/
theorem openUrl_proto_key_leak :
    (loadConfig (.doc (.jobj [("settings",
        .jobj [("browser", .jstr "constructor")])]))).1.browser =
      .jstr "constructor" ∧
    "constructor" ∉ BROWSERS.map Prod.fst ∧
    ("constructor" : String) ≠ "" ∧
    (openUrlInstruction "constructor" false).app =
      some (.protoVal "constructor") ∧
    openUrlInstruction "constructor" false ≠
      openUrlInstruction "default" false :=
  ⟨rfl, by decide, by decide, rfl, by decide⟩

/-- C10 (amended): the persisted browser setting is never re-validated at
load or launch time — no error is raised for an unsupported value — and
for every string outside the supported-browser keys that is also not an
`Object.prototype` property name (such as `"lynx"`), the launch
instruction is identical to the default-browser one (no app identifier);
for inherited property names the prototype value leaks into the app
field instead. -/
theorem openUrl_unvalidated_browser_default (b : String) (inc : Bool)
    (h1 : b ∉ BROWSERS.map Prod.fst) (h2 : b ∉ objectProtoKeys) :
    openUrlInstruction b inc = openUrlInstruction "default" inc := by
  have hfind : BROWSERS.find? (fun e => e.1 = b) = none := by
    rw [List.find?_eq_none]
    intro e he hbe
    exact h1 (by
      rw [← of_decide_eq_true hbe]
      exact List.mem_map_of_mem Prod.fst he)
  have hidx : jsIndexBrowsers b = .undefined := by
    unfold jsIndexBrowsers
    rw [hfind]
    simp [h2]
  have hdef : jsIndexBrowsers "default" = .undefined := rfl
  unfold openUrlInstruction
  rw [hidx, hdef]

/-- C10 witness: the setting `"lynx"` launches exactly as the default
browser does. -/
theorem openUrl_unvalidated_browser_default_witness :
    openUrlInstruction "lynx" true = openUrlInstruction "default" true :=
  openUrl_unvalidated_browser_default "lynx" true (by decide) (by decide)

end OpenApp
